import Mathlib

/-!
Shallow embedding of `src/fs.rs`: the async file handle state machine
(`State`, `File::poll_stop`, `poll_read`, `poll_write`, `poll_flush`,
`poll_close`, `poll_seek`) and the background read/write task bodies.

Modelling conventions:
* The OS file handle is an abstract token (`OSFile`); its identity is what the
  ownership claims are about, byte contents are not modelled.
* Asynchrony is resolved by an oracle `Env`: lists of responses consumed in
  order — whether each successive task-join poll is ready (`joins`), the
  I/O outcome of each spawned read/write task (`rwResults`) and seek task
  (`seekResults`), and the successive results of polling the pipe read end
  (`drains`) and write end (`fills`).  A spawned task's returned file is, as
  in the source, exactly the file that was moved into it.
* Each `loop \x7b match ... \x7d` in the source makes boundedly many state
  transitions per invocation (at most five); it is embedded with explicit
  fuel, fixed generously at the public wrapper.  Fuel exhaustion (which no
  execution reaches at the chosen values) answers `pending`.
* A failed `expect` (an assertion failure / unwind) is modelled as `none`;
  a normal return is `some (poll result, new state, remaining oracle)`.
-/

namespace Fs

/-- An OS file handle, abstracted to an identity token. -/
structure OSFile where
  id : Nat
deriving DecidableEq, Repr

/-- An I/O error carrying the underlying OS error code. -/
structure IOError where
  code : Nat
deriving DecidableEq, Repr

/-- Lean model of `std::io::SeekFrom`. -/
inductive SeekFrom where
  | start (n : Nat)
  | current (n : Int)
  | fromEnd (n : Int)
deriving DecidableEq, Repr

/-- Marker for the pipe's read end (`piper::Reader`). -/
inductive Reader where
  | mk
deriving DecidableEq, Repr

/-- Marker for the pipe's write end (`piper::Writer`). -/
inductive Writer where
  | mk
deriving DecidableEq, Repr

instance {ε α : Type} [DecidableEq ε] [DecidableEq α] : DecidableEq (Except ε α) := fun x y =>
  match x, y with
  | Except.ok a, Except.ok b =>
    if h : a = b then isTrue (by rw [h]) else isFalse (fun hc => h (Except.ok.inj hc))
  | Except.ok _, Except.error _ => isFalse (fun hc => Except.noConfusion hc)
  | Except.error _, Except.ok _ => isFalse (fun hc => Except.noConfusion hc)
  | Except.error a, Except.error b =>
    if h : a = b then isTrue (by rw [h]) else isFalse (fun hc => h (Except.error.inj hc))

/-- A spawned read or write background task: its eventual result
`(io::Result<()>, std::fs::File)`.  The `file` component is the file that was
moved into the closure and is returned by it on every path. -/
structure RWTask where
  res : Except IOError Unit
  file : OSFile
deriving DecidableEq, Repr

/-- A spawned seek background task: its eventual result
`(SeekFrom, io::Result<u64>, std::fs::File)`; `target` is the position
requested when the task was spawned. -/
structure SeekTask where
  target : SeekFrom
  res : Except IOError Nat
  file : OSFile
deriving DecidableEq, Repr

/-- The `State` enum of `fs.rs`. -/
inductive State where
  | Idle (file : Option OSFile)
  | InRead (reader : Option Reader) (task : RWTask)
  | InWrite (writer : Option Writer) (task : RWTask)
  | InSeek (task : SeekTask)
deriving DecidableEq, Repr

/-- Lean model of `Poll` from `std::task`. -/
inductive Poll (α : Type) where
  | pending
  | ready (a : α)
deriving DecidableEq, Repr

/-- The oracle resolving every external interaction of one or more poll
invocations; each list is consumed front to back. -/
structure Env where
  joins : List Bool
  rwResults : List (Except IOError Unit)
  seekResults : List (Except IOError Nat)
  drains : List (Poll (Except IOError Nat))
  fills : List (Poll (Except IOError Nat))
deriving DecidableEq, Repr

/-- Consume the next task-join readiness answer (default: not ready). -/
def Env.popJoin (e : Env) : Bool × Env :=
  match e.joins with
  | [] => (false, e)
  | b :: rest => (b, { e with joins := rest })

/-- Consume the eventual I/O result of a newly spawned read/write task. -/
def Env.popRW (e : Env) : Except IOError Unit × Env :=
  match e.rwResults with
  | [] => (Except.ok (), e)
  | r :: rest => (r, { e with rwResults := rest })

/-- Consume the eventual I/O result of a newly spawned seek task. -/
def Env.popSeek (e : Env) : Except IOError Nat × Env :=
  match e.seekResults with
  | [] => (Except.ok 0, e)
  | r :: rest => (r, { e with seekResults := rest })

/-- Consume the next `poll_drain` answer on the pipe's read end. -/
def Env.popDrain (e : Env) : Poll (Except IOError Nat) × Env :=
  match e.drains with
  | [] => (Poll.pending, e)
  | d :: rest => (d, { e with drains := rest })

/-- Consume the next `poll_fill` answer on the pipe's write end. -/
def Env.popFill (e : Env) : Poll (Except IOError Nat) × Env :=
  match e.fills with
  | [] => (Poll.pending, e)
  | d :: rest => (d, { e with fills := rest })

/-- Body of the background read task (`fs.rs` lines 95-103): repeatedly fill
the pipe from the file; `Ok(0)` means the file is exhausted, return success;
an error is returned with the file.  The argument list gives the successive
`poll_fill` outcomes; `none` means the loop has not terminated within the
given trace. -/
def readTaskRun (file : OSFile) : List (Except IOError Nat) → Option (Except IOError Unit × OSFile)
  | [] => none
  | Except.ok 0 :: _ => some (Except.ok (), file)
  | Except.ok (Nat.succ _) :: rest => readTaskRun file rest
  | Except.error e :: _ => some (Except.error e, file)

/-- Body of the background write task (`fs.rs` lines 140-151): drain the pipe
into the file until `Ok(0)`, then `file.flush()` is the task's result; on a
drain error, `file.flush().ok()` is still attempted but its result is
discarded in favour of the drain error.  First component: the closure's
return `(io::Result<()>, File)`; second component: `some flushRes` iff the
blocking flush was attempted. -/
def writeTaskRun (file : OSFile) (flushRes : Except IOError Unit) :
    List (Except IOError Nat) → Option ((Except IOError Unit × OSFile) × Option (Except IOError Unit))
  | [] => none
  | Except.ok 0 :: _ => some ((flushRes, file), some flushRes)
  | Except.ok (Nat.succ _) :: rest => writeTaskRun file flushRes rest
  | Except.error e :: _ => some ((Except.error e, file), some flushRes)

/-- Model of `File::poll_stop` (`fs.rs` lines 58-81).  In `InRead`/`InWrite` the pipe
end is taken and dropped before the task is polled, so a pending join leaves
the state with the pipe end absent; a ready join recovers the file into
`Idle` and then propagates the task's error, the loop otherwise re-entering
the `Idle` arm which succeeds. -/
def pollStop (s : State) (e : Env) : Poll (Except IOError Unit) × State × Env :=
  match s with
  | State.Idle f => (Poll.ready (Except.ok ()), State.Idle f, e)
  | State.InRead _ task =>
    let (j, e') := e.popJoin
    if j then
      match task.res with
      | Except.ok _ => (Poll.ready (Except.ok ()), State.Idle (some task.file), e')
      | Except.error err => (Poll.ready (Except.error err), State.Idle (some task.file), e')
    else (Poll.pending, State.InRead none task, e')
  | State.InWrite _ task =>
    let (j, e') := e.popJoin
    if j then
      match task.res with
      | Except.ok _ => (Poll.ready (Except.ok ()), State.Idle (some task.file), e')
      | Except.error err => (Poll.ready (Except.error err), State.Idle (some task.file), e')
    else (Poll.pending, State.InWrite none task, e')
  | State.InSeek task =>
    let (j, e') := e.popJoin
    if j then
      match task.res with
      | Except.ok _ => (Poll.ready (Except.ok ()), State.Idle (some task.file), e')
      | Except.error err => (Poll.ready (Except.error err), State.Idle (some task.file), e')
    else (Poll.pending, State.InSeek task, e')

/-- The `loop` of `File::poll_read` (`fs.rs` lines 90-125), one iteration per
fuel unit.  `none` models the `expect` assertion failures on a missing file
(after close) or a missing pipe read end. -/
def pollReadAux : Nat → State → Env → Option (Poll (Except IOError Nat) × State × Env)
  | 0, s, e => some (Poll.pending, s, e)
  | Nat.succ fuel, s, e =>
    match s with
    | State.Idle none => none
    | State.Idle (some f) =>
      let (r, e') := e.popRW
      pollReadAux fuel (State.InRead (some Reader.mk) ⟨r, f⟩) e'
    | State.InRead none _ => none
    | State.InRead (some rd) task =>
      let (d, e') := e.popDrain
      match d with
      | Poll.pending => some (Poll.pending, State.InRead (some rd) task, e')
      | Poll.ready (Except.error err) =>
        some (Poll.ready (Except.error err), State.InRead (some rd) task, e')
      | Poll.ready (Except.ok n) =>
        if n = 0 then
          let (j, e'') := e'.popJoin
          if j then
            match task.res with
            | Except.ok _ => some (Poll.ready (Except.ok 0), State.Idle (some task.file), e'')
            | Except.error err =>
              some (Poll.ready (Except.error err), State.Idle (some task.file), e'')
          else some (Poll.pending, State.InRead (some rd) task, e'')
        else some (Poll.ready (Except.ok n), State.InRead (some rd) task, e')
    | s =>
      match pollStop s e with
      | (Poll.pending, s', e') => some (Poll.pending, s', e')
      | (Poll.ready (Except.error err), s', e') => some (Poll.ready (Except.error err), s', e')
      | (Poll.ready (Except.ok _), s', e') => pollReadAux fuel s' e'

/-- Model of `File::poll_read`; fuel 4 covers the longest possible iteration chain
(quiesce, then spawn from `Idle`, then the `InRead` arm). -/
def pollRead (s : State) (e : Env) : Option (Poll (Except IOError Nat) × State × Env) :=
  pollReadAux 4 s e

/-- The `loop` of `File::poll_write` (`fs.rs` lines 135-165).  In `InWrite`
the call is forwarded directly to the pipe write end's `poll_fill`, the task
untouched. -/
def pollWriteAux : Nat → State → Env → Option (Poll (Except IOError Nat) × State × Env)
  | 0, s, e => some (Poll.pending, s, e)
  | Nat.succ fuel, s, e =>
    match s with
    | State.Idle none => none
    | State.Idle (some f) =>
      let (r, e') := e.popRW
      pollWriteAux fuel (State.InWrite (some Writer.mk) ⟨r, f⟩) e'
    | State.InWrite none _ => none
    | State.InWrite (some w) task =>
      let (d, e') := e.popFill
      match d with
      | Poll.pending => some (Poll.pending, State.InWrite (some w) task, e')
      | Poll.ready r => some (Poll.ready r, State.InWrite (some w) task, e')
    | s =>
      match pollStop s e with
      | (Poll.pending, s', e') => some (Poll.pending, s', e')
      | (Poll.ready (Except.error err), s', e') => some (Poll.ready (Except.error err), s', e')
      | (Poll.ready (Except.ok _), s', e') => pollWriteAux fuel s' e'

/-- Model of `File::poll_write`; fuel 4 covers the longest iteration chain. -/
def pollWrite (s : State) (e : Env) : Option (Poll (Except IOError Nat) × State × Env) :=
  pollWriteAux 4 s e

/-- The `loop` of `File::poll_flush` (`fs.rs` lines 168-177): `Idle` succeeds
immediately, any other state is quiesced via `poll_stop` first. -/
def pollFlushAux : Nat → State → Env → Poll (Except IOError Unit) × State × Env
  | 0, s, e => (Poll.pending, s, e)
  | Nat.succ fuel, s, e =>
    match s with
    | State.Idle f => (Poll.ready (Except.ok ()), State.Idle f, e)
    | s =>
      match pollStop s e with
      | (Poll.pending, s', e') => (Poll.pending, s', e')
      | (Poll.ready (Except.error err), s', e') => (Poll.ready (Except.error err), s', e')
      | (Poll.ready (Except.ok _), s', e') => pollFlushAux fuel s' e'

/-- Model of `File::poll_flush`; fuel 3 covers the longest iteration chain. -/
def pollFlush (s : State) (e : Env) : Poll (Except IOError Unit) × State × Env :=
  pollFlushAux 3 s e

/-- Model of `File::poll_close` (`fs.rs` lines 179-183): `ready!(poll_flush)?`, and
only on its success `state = Idle(None)` with `Ready(Ok(()))`; a pending or
erroring flush is propagated with the state exactly as the flush left it. -/
def pollClose (s : State) (e : Env) : Poll (Except IOError Unit) × State × Env :=
  match pollFlush s e with
  | (Poll.pending, s', e') => (Poll.pending, s', e')
  | (Poll.ready (Except.error err), s', e') => (Poll.ready (Except.error err), s', e')
  | (Poll.ready (Except.ok _), _, e') => (Poll.ready (Except.ok ()), State.Idle none, e')

/-- The `loop` of `File::poll_seek` (`fs.rs` lines 192-213).  From `Idle` a
seek task recording `pos` is spawned; in `InSeek` a ready join recovers the
file into `Idle`, propagates the task's error, returns its position when the
recorded target equals `pos`, and otherwise loops back to `Idle` to respawn
with the new target. -/
def pollSeekAux (pos : SeekFrom) : Nat → State → Env → Option (Poll (Except IOError Nat) × State × Env)
  | 0, s, e => some (Poll.pending, s, e)
  | Nat.succ fuel, s, e =>
    match s with
    | State.Idle none => none
    | State.Idle (some f) =>
      let (r, e') := e.popSeek
      pollSeekAux pos fuel (State.InSeek ⟨pos, r, f⟩) e'
    | State.InSeek task =>
      let (j, e') := e.popJoin
      if j then
        match task.res with
        | Except.error err => some (Poll.ready (Except.error err), State.Idle (some task.file), e')
        | Except.ok current =>
          if task.target = pos then
            some (Poll.ready (Except.ok current), State.Idle (some task.file), e')
          else pollSeekAux pos fuel (State.Idle (some task.file)) e'
      else some (Poll.pending, State.InSeek task, e')
    | s =>
      match pollStop s e with
      | (Poll.pending, s', e') => some (Poll.pending, s', e')
      | (Poll.ready (Except.error err), s', e') => some (Poll.ready (Except.error err), s', e')
      | (Poll.ready (Except.ok _), s', e') => pollSeekAux pos fuel s' e'

/-- Model of `File::poll_seek`; fuel 6 covers the longest iteration chain (quiesce,
stale join with mismatched target, respawn, new join). -/
def pollSeek (pos : SeekFrom) (s : State) (e : Env) : Option (Poll (Except IOError Nat) × State × Env) :=
  pollSeekAux pos 6 s e

/-- Resource accounting for invariant I1: relative to the file `f0` the
handle was constructed from, the state holds exactly one of the OS handle
(in the `Idle` slot) or one background task carrying that same handle —
except the closed state `Idle none`, which holds neither. -/
def holdsExactly (f0 : OSFile) : State → Bool
  | State.Idle none => true
  | State.Idle (some f) => f == f0
  | State.InRead _ t => t.file == f0
  | State.InWrite _ t => t.file == f0
  | State.InSeek t => t.file == f0

/-- One public operation applied in some environment, relating the state
before to the state after (panicking invocations relate nothing). -/
inductive Step : State → State → Prop where
  | read (s : State) (e : Env) (p : Poll (Except IOError Nat)) (s' : State) (e' : Env) :
      pollRead s e = some (p, s', e') → Step s s'
  | write (s : State) (e : Env) (p : Poll (Except IOError Nat)) (s' : State) (e' : Env) :
      pollWrite s e = some (p, s', e') → Step s s'
  | seek (pos : SeekFrom) (s : State) (e : Env) (p : Poll (Except IOError Nat)) (s' : State) (e' : Env) :
      pollSeek pos s e = some (p, s', e') → Step s s'
  | flush (s : State) (e : Env) : Step s (pollFlush s e).2.1
  | close (s : State) (e : Env) : Step s (pollClose s e).2.1

/-- States reachable from construction over the file `f0`
(`File::from` wraps it as `Idle(Some(f0))`). -/
inductive Reachable (f0 : OSFile) : State → Prop where
  | init : Reachable f0 (State.Idle (some f0))
  | step {s s' : State} : Reachable f0 s → Step s s' → Reachable f0 s'

/-- Quiesce preserves the resource accounting: the output state holds the
same resource (relative to `f0`) as the input state. -/
theorem pollStop_holds (f0 : OSFile) (s : State) (e : Env) :
    holdsExactly f0 (pollStop s e).2.1 = holdsExactly f0 s := by
  rcases e with ⟨js, rws, sks, ds, fls⟩
  cases s with
  | Idle f => rfl
  | InRead r t =>
    cases js with
    | nil => rfl
    | cons b bs => cases b <;> rcases t with ⟨tres, tfile⟩ <;> cases tres <;> rfl
  | InWrite w t =>
    cases js with
    | nil => rfl
    | cons b bs => cases b <;> rcases t with ⟨tres, tfile⟩ <;> cases tres <;> rfl
  | InSeek t =>
    cases js with
    | nil => rfl
    | cons b bs => cases b <;> rcases t with ⟨tgt, tres, tfile⟩ <;> cases tres <;> rfl

/-- When `poll_stop` surfaces an I/O error, the state it leaves behind is
`Idle` owning the recovered OS handle. -/
theorem pollStop_error_idle (s : State) (e : Env) (err : IOError)
    (h : (pollStop s e).1 = Poll.ready (Except.error err)) :
    ∃ f, (pollStop s e).2.1 = State.Idle (some f) := by
  rcases e with ⟨js, rws, sks, ds, fls⟩
  cases s with
  | Idle f => exact absurd h (by simp [pollStop])
  | InRead r t =>
    cases js with
    | nil => exact absurd h (by simp [pollStop, Env.popJoin])
    | cons b bs =>
      rcases t with ⟨tres, tfile⟩
      cases b <;> cases tres <;>
        first
          | exact ⟨tfile, rfl⟩
          | exact absurd h (by simp [pollStop, Env.popJoin])
  | InWrite w t =>
    cases js with
    | nil => exact absurd h (by simp [pollStop, Env.popJoin])
    | cons b bs =>
      rcases t with ⟨tres, tfile⟩
      cases b <;> cases tres <;>
        first
          | exact ⟨tfile, rfl⟩
          | exact absurd h (by simp [pollStop, Env.popJoin])
  | InSeek t =>
    cases js with
    | nil => exact absurd h (by simp [pollStop, Env.popJoin])
    | cons b bs =>
      rcases t with ⟨tgt, tres, tfile⟩
      cases b <;> cases tres <;>
        first
          | exact ⟨tfile, rfl⟩
          | exact absurd h (by simp [pollStop, Env.popJoin])

/-- The flush loop preserves the resource accounting at every fuel. -/
theorem pollFlushAux_holds (f0 : OSFile) :
    ∀ fuel s e, holdsExactly f0 (pollFlushAux fuel s e).2.1 = holdsExactly f0 s := by
  intro fuel
  induction fuel with
  | zero => intro s e; rfl
  | succ n ih =>
    intro s e
    cases s with
    | Idle f => rfl
    | InRead r t =>
      have hps := pollStop_holds f0 (State.InRead r t) e
      simp only [pollFlushAux]
      rcases hs : pollStop (State.InRead r t) e with ⟨p, s', e'⟩
      rw [hs] at hps
      rcases p with _ | ⟨_ | _⟩ <;> simp only [] <;> first | exact hps | exact (ih s' e').trans hps
    | InWrite w t =>
      have hps := pollStop_holds f0 (State.InWrite w t) e
      simp only [pollFlushAux]
      rcases hs : pollStop (State.InWrite w t) e with ⟨p, s', e'⟩
      rw [hs] at hps
      rcases p with _ | ⟨_ | _⟩ <;> simp only [] <;> first | exact hps | exact (ih s' e').trans hps
    | InSeek t =>
      have hps := pollStop_holds f0 (State.InSeek t) e
      simp only [pollFlushAux]
      rcases hs : pollStop (State.InSeek t) e with ⟨p, s', e'⟩
      rw [hs] at hps
      rcases p with _ | ⟨_ | _⟩ <;> simp only [] <;> first | exact hps | exact (ih s' e').trans hps

/-- Flush preserves the resource accounting. -/
theorem pollFlush_holds (f0 : OSFile) (s : State) (e : Env) :
    holdsExactly f0 (pollFlush s e).2.1 = holdsExactly f0 s :=
  pollFlushAux_holds f0 3 s e

/-- When the flush loop surfaces an I/O error, the state it leaves behind is
`Idle` owning the recovered OS handle. -/
theorem pollFlushAux_error_idle :
    ∀ fuel s e err, (pollFlushAux fuel s e).1 = Poll.ready (Except.error err) →
      ∃ f, (pollFlushAux fuel s e).2.1 = State.Idle (some f) := by
  intro fuel
  induction fuel with
  | zero => intro s e err h; exact absurd h (by simp [pollFlushAux])
  | succ n ih =>
    intro s e err h
    cases s with
    | Idle f => exact absurd h (by simp [pollFlushAux])
    | InRead r t =>
      have hsi := pollStop_error_idle (State.InRead r t) e err
      rcases hs : pollStop (State.InRead r t) e with ⟨p, s2, e2⟩
      rw [hs] at hsi
      simp only [pollFlushAux, hs] at h ⊢
      rcases p with _ | ⟨err2 | u⟩
      · exact absurd h (by simp)
      · exact hsi h
      · exact ih s2 e2 err h
    | InWrite w t =>
      have hsi := pollStop_error_idle (State.InWrite w t) e err
      rcases hs : pollStop (State.InWrite w t) e with ⟨p, s2, e2⟩
      rw [hs] at hsi
      simp only [pollFlushAux, hs] at h ⊢
      rcases p with _ | ⟨err2 | u⟩
      · exact absurd h (by simp)
      · exact hsi h
      · exact ih s2 e2 err h
    | InSeek t =>
      have hsi := pollStop_error_idle (State.InSeek t) e err
      rcases hs : pollStop (State.InSeek t) e with ⟨p, s2, e2⟩
      rw [hs] at hsi
      simp only [pollFlushAux, hs] at h ⊢
      rcases p with _ | ⟨err2 | u⟩
      · exact absurd h (by simp)
      · exact hsi h
      · exact ih s2 e2 err h

/-- The read loop preserves the resource accounting at every fuel. -/
theorem pollReadAux_holds (f0 : OSFile) :
    ∀ fuel s e r, pollReadAux fuel s e = some r →
      holdsExactly f0 r.2.1 = holdsExactly f0 s := by
  intro fuel
  induction fuel with
  | zero =>
    intro s e r h
    obtain rfl := Option.some.inj h
    rfl
  | succ n ih =>
    intro s e r h
    cases s with
    | Idle f =>
      cases f with
      | none => exact Option.noConfusion h
      | some f1 =>
        rcases e with ⟨js, rws, sks, ds, fs⟩
        cases rws with
        | nil =>
          exact ih (State.InRead (some Reader.mk) ⟨Except.ok (), f1⟩) ⟨js, [], sks, ds, fs⟩ r h
        | cons v vs =>
          exact ih (State.InRead (some Reader.mk) ⟨v, f1⟩) ⟨js, vs, sks, ds, fs⟩ r h
    | InRead rd t =>
      cases rd with
      | none => exact Option.noConfusion h
      | some rd =>
        rcases e with ⟨js, rws, sks, ds, fs⟩
        cases ds with
        | nil => obtain rfl := Option.some.inj h; rfl
        | cons d ds2 =>
          rcases d with _ | ⟨derr | dn⟩
          · obtain rfl := Option.some.inj h; rfl
          · obtain rfl := Option.some.inj h; rfl
          · cases dn with
            | succ m => obtain rfl := Option.some.inj h; rfl
            | zero =>
              cases js with
              | nil => obtain rfl := Option.some.inj h; rfl
              | cons b bs =>
                cases b with
                | false => obtain rfl := Option.some.inj h; rfl
                | true =>
                  rcases t with ⟨tres, tfile⟩
                  cases tres with
                  | error terr => obtain rfl := Option.some.inj h; rfl
                  | ok u => obtain rfl := Option.some.inj h; rfl
    | InWrite w t =>
      have hh := pollStop_holds f0 (State.InWrite w t) e
      rcases hs : pollStop (State.InWrite w t) e with ⟨p, s2, e2⟩
      rw [hs] at hh
      simp only [pollReadAux, hs] at h
      rcases p with _ | ⟨perr | pu⟩
      · obtain rfl := Option.some.inj h; exact hh
      · obtain rfl := Option.some.inj h; exact hh
      · exact (ih s2 e2 r h).trans hh
    | InSeek t =>
      have hh := pollStop_holds f0 (State.InSeek t) e
      rcases hs : pollStop (State.InSeek t) e with ⟨p, s2, e2⟩
      rw [hs] at hh
      simp only [pollReadAux, hs] at h
      rcases p with _ | ⟨perr | pu⟩
      · obtain rfl := Option.some.inj h; exact hh
      · obtain rfl := Option.some.inj h; exact hh
      · exact (ih s2 e2 r h).trans hh

/-- The write loop preserves the resource accounting at every fuel. -/
theorem pollWriteAux_holds (f0 : OSFile) :
    ∀ fuel s e r, pollWriteAux fuel s e = some r →
      holdsExactly f0 r.2.1 = holdsExactly f0 s := by
  intro fuel
  induction fuel with
  | zero =>
    intro s e r h
    obtain rfl := Option.some.inj h
    rfl
  | succ n ih =>
    intro s e r h
    cases s with
    | Idle f =>
      cases f with
      | none => exact Option.noConfusion h
      | some f1 =>
        rcases e with ⟨js, rws, sks, ds, fs⟩
        cases rws with
        | nil =>
          exact ih (State.InWrite (some Writer.mk) ⟨Except.ok (), f1⟩) ⟨js, [], sks, ds, fs⟩ r h
        | cons v vs =>
          exact ih (State.InWrite (some Writer.mk) ⟨v, f1⟩) ⟨js, vs, sks, ds, fs⟩ r h
    | InWrite w t =>
      cases w with
      | none => exact Option.noConfusion h
      | some w =>
        rcases e with ⟨js, rws, sks, ds, fs⟩
        cases fs with
        | nil => obtain rfl := Option.some.inj h; rfl
        | cons d fs2 =>
          rcases d with _ | dres
          · obtain rfl := Option.some.inj h; rfl
          · obtain rfl := Option.some.inj h; rfl
    | InRead rd t =>
      have hh := pollStop_holds f0 (State.InRead rd t) e
      rcases hs : pollStop (State.InRead rd t) e with ⟨p, s2, e2⟩
      rw [hs] at hh
      simp only [pollWriteAux, hs] at h
      rcases p with _ | ⟨perr | pu⟩
      · obtain rfl := Option.some.inj h; exact hh
      · obtain rfl := Option.some.inj h; exact hh
      · exact (ih s2 e2 r h).trans hh
    | InSeek t =>
      have hh := pollStop_holds f0 (State.InSeek t) e
      rcases hs : pollStop (State.InSeek t) e with ⟨p, s2, e2⟩
      rw [hs] at hh
      simp only [pollWriteAux, hs] at h
      rcases p with _ | ⟨perr | pu⟩
      · obtain rfl := Option.some.inj h; exact hh
      · obtain rfl := Option.some.inj h; exact hh
      · exact (ih s2 e2 r h).trans hh

/-- The seek loop preserves the resource accounting at every fuel. -/
theorem pollSeekAux_holds (f0 : OSFile) (pos : SeekFrom) :
    ∀ fuel s e r, pollSeekAux pos fuel s e = some r →
      holdsExactly f0 r.2.1 = holdsExactly f0 s := by
  intro fuel
  induction fuel with
  | zero =>
    intro s e r h
    obtain rfl := Option.some.inj h
    rfl
  | succ n ih =>
    intro s e r h
    cases s with
    | Idle f =>
      cases f with
      | none => exact Option.noConfusion h
      | some f1 =>
        rcases e with ⟨js, rws, sks, ds, fs⟩
        cases sks with
        | nil =>
          exact ih (State.InSeek ⟨pos, Except.ok 0, f1⟩) ⟨js, rws, [], ds, fs⟩ r h
        | cons v vs =>
          exact ih (State.InSeek ⟨pos, v, f1⟩) ⟨js, rws, vs, ds, fs⟩ r h
    | InSeek t =>
      rcases e with ⟨js, rws, sks, ds, fs⟩
      cases js with
      | nil => obtain rfl := Option.some.inj h; rfl
      | cons b bs =>
        cases b with
        | false => obtain rfl := Option.some.inj h; rfl
        | true =>
          rcases t with ⟨tgt, tres, tfile⟩
          cases tres with
          | error terr => obtain rfl := Option.some.inj h; rfl
          | ok cur =>
            change (if tgt = pos then
                some (Poll.ready (Except.ok cur), State.Idle (some tfile),
                  (⟨bs, rws, sks, ds, fs⟩ : Env))
              else pollSeekAux pos n (State.Idle (some tfile)) ⟨bs, rws, sks, ds, fs⟩)
              = some r at h
            by_cases ht : tgt = pos
            · rw [if_pos ht] at h
              obtain rfl := Option.some.inj h; rfl
            · rw [if_neg ht] at h
              exact ih (State.Idle (some tfile)) ⟨bs, rws, sks, ds, fs⟩ r h
    | InRead rd t =>
      have hh := pollStop_holds f0 (State.InRead rd t) e
      rcases hs : pollStop (State.InRead rd t) e with ⟨p, s2, e2⟩
      rw [hs] at hh
      simp only [pollSeekAux, hs] at h
      rcases p with _ | ⟨perr | pu⟩
      · obtain rfl := Option.some.inj h; exact hh
      · obtain rfl := Option.some.inj h; exact hh
      · exact (ih s2 e2 r h).trans hh
    | InWrite w t =>
      have hh := pollStop_holds f0 (State.InWrite w t) e
      rcases hs : pollStop (State.InWrite w t) e with ⟨p, s2, e2⟩
      rw [hs] at hh
      simp only [pollSeekAux, hs] at h
      rcases p with _ | ⟨perr | pu⟩
      · obtain rfl := Option.some.inj h; exact hh
      · obtain rfl := Option.some.inj h; exact hh
      · exact (ih s2 e2 r h).trans hh

/-- Close preserves the resource accounting: a successful close leaves
the closed state `Idle none`, any other outcome leaves the flush's state. -/
theorem pollClose_holds (f0 : OSFile) (s : State) (e : Env)
    (hs : holdsExactly f0 s = true) :
    holdsExactly f0 (pollClose s e).2.1 = true := by
  have hf := pollFlush_holds f0 s e
  rcases hfe : pollFlush s e with ⟨p, s2, e2⟩
  rw [hfe] at hf
  simp only [pollClose, hfe]
  rcases p with _ | ⟨perr | pu⟩
  · exact hf.trans hs
  · exact hf.trans hs
  · rfl

/-- Claim C8: in every state reachable from construction by any sequence of
read, write, seek, flush and close operations, the handle owns exactly one of
the OS file handle or one background task carrying that handle: `Idle` before
close holds the OS handle and no task, each in-flight state holds exactly one
task into which the original OS handle was moved and from whose result it is
recovered on join, and the handle is never duplicated (every owning slot
holds the construction-time handle `f0`) nor dropped while a task is in
flight (after close the state is `Idle none`, owning neither). -/
theorem reachable_holdsExactly (f0 : OSFile) (s : State)
    (h : Reachable f0 s) : holdsExactly f0 s = true := by
  induction h with
  | init => simp [holdsExactly]
  | step hr hstep ih =>
    rename_i s1 s2
    cases hstep with
    | read s e p s' e' heq => exact (pollReadAux_holds f0 4 s1 e _ heq).trans ih
    | write s e p s' e' heq => exact (pollWriteAux_holds f0 4 s1 e _ heq).trans ih
    | seek pos s e p s' e' heq => exact (pollSeekAux_holds f0 pos 6 s1 e _ heq).trans ih
    | flush s e => exact (pollFlush_holds f0 s1 e).trans ih
    | close s e => exact pollClose_holds f0 s1 e ih

/-- Witness for C8: the construction state over a concrete handle is
reachable and satisfies the ownership accounting. -/
theorem reachable_holdsExactly_witness :
    Reachable ⟨0⟩ (State.Idle (some ⟨0⟩))
    ∧ holdsExactly ⟨0⟩ (State.Idle (some ⟨0⟩)) = true :=
  ⟨Reachable.init, reachable_holdsExactly ⟨0⟩ (State.Idle (some ⟨0⟩)) Reachable.init⟩

/-- Claim C1, counterexample: with a write task that completed with I/O error
7, `close` propagates the flush error but does NOT set the state to Idle with
no OS handle — the state is left as `Idle (some handle)`, so the handle is
not released on a flush error, contradicting "unconditionally sets the state
to Idle with no OS file handle ... even when flush reports an I/O error". -/
theorem pollClose_flush_error_keeps_handle :
    pollClose (State.InWrite (some Writer.mk) ⟨Except.error ⟨7⟩, ⟨1⟩⟩) ⟨[true], [], [], [], []⟩
      = (Poll.ready (Except.error ⟨7⟩), State.Idle (some ⟨1⟩), ⟨[], [], [], [], []⟩)
    ∧ State.Idle (some (⟨1⟩ : OSFile)) ≠ State.Idle none :=
  ⟨rfl, by decide⟩

/-- Claim C1 (amended): `close` first performs flush; when flush succeeds it
sets the state to Idle with no OS handle (releasing it) and returns success,
but when flush reports an I/O error the error is propagated and the handle is
NOT released — the state is left as flush left it, namely Idle owning the
recovered OS handle — and a second close then succeeds and releases it. -/
theorem pollClose_releases_only_after_flush_ok (s : State) (e : Env) (s' : State) (e' : Env) :
    (∀ u, pollFlush s e = (Poll.ready (Except.ok u), s', e') →
      pollClose s e = (Poll.ready (Except.ok ()), State.Idle none, e'))
    ∧ ∀ err, pollFlush s e = (Poll.ready (Except.error err), s', e') →
        pollClose s e = (Poll.ready (Except.error err), s', e')
        ∧ (∃ f, s' = State.Idle (some f))
        ∧ ∀ e2, pollClose s' e2 = (Poll.ready (Except.ok ()), State.Idle none, e2) := by
  constructor
  · intro u hf
    unfold pollClose
    rw [hf]
  · intro err hf
    have h1 : (pollFlushAux 3 s e).1 = Poll.ready (Except.error err) := by
      show (pollFlush s e).1 = _
      rw [hf]
    obtain ⟨f, hfid⟩ := pollFlushAux_error_idle 3 s e err h1
    have hs' : s' = State.Idle (some f) := by
      have hp : (pollFlush s e).2.1 = s' := by rw [hf]
      rw [← hp]
      exact hfid
    refine ⟨by unfold pollClose; rw [hf], ⟨f, hs'⟩, ?_⟩
    intro e2
    rw [hs']
    rfl

/-- Witness for C1 (amended): a concrete handle whose write task failed with
error 7; close propagates the error leaving `Idle (some handle)`, and the
second close succeeds with `Idle none`. -/
theorem pollClose_releases_only_after_flush_ok_witness :
    pollClose (State.InWrite (some Writer.mk) ⟨Except.error ⟨7⟩, ⟨1⟩⟩) ⟨[true], [], [], [], []⟩
      = (Poll.ready (Except.error ⟨7⟩), State.Idle (some ⟨1⟩), ⟨[], [], [], [], []⟩)
    ∧ pollClose (State.Idle (some ⟨1⟩)) ⟨[], [], [], [], []⟩
      = (Poll.ready (Except.ok ()), State.Idle none, ⟨[], [], [], [], []⟩) := by
  have h := (pollClose_releases_only_after_flush_ok
      (State.InWrite (some Writer.mk) ⟨Except.error ⟨7⟩, ⟨1⟩⟩) ⟨[true], [], [], [], []⟩
      (State.Idle (some ⟨1⟩)) ⟨[], [], [], [], []⟩).2 ⟨7⟩ (by decide)
  exact ⟨h.1, h.2.2 ⟨[], [], [], [], []⟩⟩

/-- Claim C2: whenever a background task's result carries an I/O error, every
operation that observes that task — quiesce from any of the three in-flight
states, the end-of-stream branch of read, and seek completion — sets the
state to Idle with the recovered OS handle and propagates the error, so after
any surfaced error the handle is Idle owning the OS handle. -/
theorem ioError_surfaced_after_idle_recovery (f : OSFile) (err : IOError)
    (r : Option Reader) (w : Option Writer) (tgt pos : SeekFrom)
    (js : List Bool) (rws : List (Except IOError Unit)) (sks : List (Except IOError Nat))
    (ds fls : List (Poll (Except IOError Nat))) :
    pollStop (State.InRead r ⟨Except.error err, f⟩) ⟨true :: js, rws, sks, ds, fls⟩
      = (Poll.ready (Except.error err), State.Idle (some f), ⟨js, rws, sks, ds, fls⟩)
    ∧ pollStop (State.InWrite w ⟨Except.error err, f⟩) ⟨true :: js, rws, sks, ds, fls⟩
      = (Poll.ready (Except.error err), State.Idle (some f), ⟨js, rws, sks, ds, fls⟩)
    ∧ pollStop (State.InSeek ⟨tgt, Except.error err, f⟩) ⟨true :: js, rws, sks, ds, fls⟩
      = (Poll.ready (Except.error err), State.Idle (some f), ⟨js, rws, sks, ds, fls⟩)
    ∧ pollRead (State.InRead (some Reader.mk) ⟨Except.error err, f⟩)
        ⟨true :: js, rws, sks, Poll.ready (Except.ok 0) :: ds, fls⟩
      = some (Poll.ready (Except.error err), State.Idle (some f), ⟨js, rws, sks, ds, fls⟩)
    ∧ pollSeek pos (State.InSeek ⟨tgt, Except.error err, f⟩) ⟨true :: js, rws, sks, ds, fls⟩
      = some (Poll.ready (Except.error err), State.Idle (some f), ⟨js, rws, sks, ds, fls⟩) :=
  ⟨rfl, rfl, rfl, rfl, rfl⟩

/-- Claim C3: when the seek task completes under `poll_seek` with target
`pos`: a matching recorded target returns the task's resulting position; a
mismatched target discards a successful stale result and restarts from Idle
with the new target (returning the new task's position once it joins, or
pending with the new task in flight if it has not), while a stale error is
still propagated; so a seek retargeted before completion yields the new
target's position, not the stale one. -/
theorem pollSeek_target_match_retarget (f : OSFile) (pos tgt : SeekFrom)
    (cur curY : Nat) (err : IOError)
    (js : List Bool) (rws : List (Except IOError Unit)) (sks : List (Except IOError Nat))
    (ds fls : List (Poll (Except IOError Nat))) (h : tgt ≠ pos) :
    pollSeek pos (State.InSeek ⟨pos, Except.ok cur, f⟩) ⟨true :: js, rws, sks, ds, fls⟩
      = some (Poll.ready (Except.ok cur), State.Idle (some f), ⟨js, rws, sks, ds, fls⟩)
    ∧ pollSeek pos (State.InSeek ⟨tgt, Except.ok cur, f⟩)
        ⟨true :: true :: js, rws, Except.ok curY :: sks, ds, fls⟩
      = some (Poll.ready (Except.ok curY), State.Idle (some f), ⟨js, rws, sks, ds, fls⟩)
    ∧ pollSeek pos (State.InSeek ⟨tgt, Except.ok cur, f⟩)
        ⟨true :: false :: js, rws, Except.ok curY :: sks, ds, fls⟩
      = some (Poll.pending, State.InSeek ⟨pos, Except.ok curY, f⟩, ⟨js, rws, sks, ds, fls⟩)
    ∧ pollSeek pos (State.InSeek ⟨tgt, Except.error err, f⟩) ⟨true :: js, rws, sks, ds, fls⟩
      = some (Poll.ready (Except.error err), State.Idle (some f), ⟨js, rws, sks, ds, fls⟩) := by
  refine ⟨?_, ?_, ?_, rfl⟩ <;>
    simp [pollSeek, pollSeekAux, Env.popJoin, Env.popSeek, h]

/-- Witness for C3: seek to byte 3 was in flight, the current call targets
byte 9; the stale success at position 3 is discarded and the restarted seek
returns position 9. -/
theorem pollSeek_target_match_retarget_witness :
    pollSeek (SeekFrom.start 9) (State.InSeek ⟨SeekFrom.start 3, Except.ok 3, ⟨1⟩⟩)
        ⟨[true, true], [], [Except.ok 9], [], []⟩
      = some (Poll.ready (Except.ok 9), State.Idle (some ⟨1⟩), ⟨[], [], [], [], []⟩) := by
  have h := pollSeek_target_match_retarget ⟨1⟩ (SeekFrom.start 9) (SeekFrom.start 3)
      3 9 ⟨0⟩ [] [] [] [] [] (by decide)
  exact h.2.1

/-- Claim C4: in the Reading state, a pipe drain of n > 0 bytes returns n
immediately, leaving the state Reading and never polling the background task
(the join oracle is untouched); a drain of 0 bytes joins the task, recovers
the OS handle into Idle, propagates a task error, and otherwise still
returns the 0-byte end-of-stream result for that call. -/
theorem pollRead_pipe_byte_semantics (f : OSFile) (t : RWTask) (n : Nat) (err : IOError)
    (js : List Bool) (rws : List (Except IOError Unit)) (sks : List (Except IOError Nat))
    (ds fls : List (Poll (Except IOError Nat))) :
    pollRead (State.InRead (some Reader.mk) t)
        ⟨js, rws, sks, Poll.ready (Except.ok (n + 1)) :: ds, fls⟩
      = some (Poll.ready (Except.ok (n + 1)), State.InRead (some Reader.mk) t,
          ⟨js, rws, sks, ds, fls⟩)
    ∧ pollRead (State.InRead (some Reader.mk) ⟨Except.ok (), f⟩)
        ⟨true :: js, rws, sks, Poll.ready (Except.ok 0) :: ds, fls⟩
      = some (Poll.ready (Except.ok 0), State.Idle (some f), ⟨js, rws, sks, ds, fls⟩)
    ∧ pollRead (State.InRead (some Reader.mk) ⟨Except.error err, f⟩)
        ⟨true :: js, rws, sks, Poll.ready (Except.ok 0) :: ds, fls⟩
      = some (Poll.ready (Except.error err), State.Idle (some f), ⟨js, rws, sks, ds, fls⟩) :=
  ⟨rfl, rfl, rfl⟩

/-- Claim C5: the background write task drains the pipe past every positive
transfer until it reports 0 bytes, then the blocking flush's result is the
task's result; when the drain loop ends with an I/O error the flush is still
attempted (second component `some flushRes`) but its result is discarded and
the original drain error is the task's result; the OS handle is returned in
both cases. -/
theorem writeTask_drain_then_flush (file : OSFile) (flushRes : Except IOError Unit)
    (pre : List (Except IOError Nat)) (h : ∀ x ∈ pre, ∃ n, x = Except.ok (n + 1)) :
    (∀ ds, writeTaskRun file flushRes (pre ++ Except.ok 0 :: ds)
      = some ((flushRes, file), some flushRes))
    ∧ ∀ err ds, writeTaskRun file flushRes (pre ++ Except.error err :: ds)
      = some ((Except.error err, file), some flushRes) := by
  induction pre with
  | nil => exact ⟨fun ds => rfl, fun err ds => rfl⟩
  | cons x xs ih =>
    obtain ⟨n, hx⟩ := h x (List.mem_cons_self x xs)
    subst hx
    have ih2 := ih (fun y hy => h y (List.mem_cons_of_mem _ hy))
    exact ⟨fun ds => ih2.1 ds, fun err ds => ih2.2 err ds⟩

/-- Witness for C5: a drain trace of 2 bytes then end-of-pipe makes the flush
result authoritative; a drain trace of 2 bytes then error 9 returns error 9
while a flush (whose own result, error 5, is discarded) was still attempted. -/
theorem writeTask_drain_then_flush_witness :
    writeTaskRun ⟨0⟩ (Except.ok ()) [Except.ok 2, Except.ok 0]
      = some ((Except.ok (), ⟨0⟩), some (Except.ok ()))
    ∧ writeTaskRun ⟨0⟩ (Except.error ⟨5⟩) [Except.ok 2, Except.error ⟨9⟩]
      = some ((Except.error ⟨9⟩, ⟨0⟩), some (Except.error ⟨5⟩)) := by
  constructor
  · exact (writeTask_drain_then_flush ⟨0⟩ (Except.ok ()) [Except.ok 2]
      (fun x hx => ⟨1, List.mem_singleton.mp hx⟩)).1 []
  · exact (writeTask_drain_then_flush ⟨0⟩ (Except.error ⟨5⟩) [Except.ok 2]
      (fun x hx => ⟨1, List.mem_singleton.mp hx⟩)).2 ⟨9⟩ []

/-- Claim C6: flush on a handle in the Idle state (closed or not, in
particular a freshly constructed one) succeeds immediately, leaves the state
unchanged and consumes nothing from the oracle (no background task spawned);
flush in Reading, Writing or Seeking quiesces that activity, joining the task
and propagating its error, and otherwise returns success. -/
theorem pollFlush_idle_noop_and_quiesce (fo : Option OSFile) (f : OSFile) (err : IOError)
    (r : Option Reader) (w : Option Writer) (tgt : SeekFrom) (cur : Nat) (e : Env)
    (js : List Bool) (rws : List (Except IOError Unit)) (sks : List (Except IOError Nat))
    (ds fls : List (Poll (Except IOError Nat))) :
    pollFlush (State.Idle fo) e = (Poll.ready (Except.ok ()), State.Idle fo, e)
    ∧ pollFlush (State.InRead r ⟨Except.ok (), f⟩) ⟨true :: js, rws, sks, ds, fls⟩
      = (Poll.ready (Except.ok ()), State.Idle (some f), ⟨js, rws, sks, ds, fls⟩)
    ∧ pollFlush (State.InRead r ⟨Except.error err, f⟩) ⟨true :: js, rws, sks, ds, fls⟩
      = (Poll.ready (Except.error err), State.Idle (some f), ⟨js, rws, sks, ds, fls⟩)
    ∧ pollFlush (State.InWrite w ⟨Except.ok (), f⟩) ⟨true :: js, rws, sks, ds, fls⟩
      = (Poll.ready (Except.ok ()), State.Idle (some f), ⟨js, rws, sks, ds, fls⟩)
    ∧ pollFlush (State.InWrite w ⟨Except.error err, f⟩) ⟨true :: js, rws, sks, ds, fls⟩
      = (Poll.ready (Except.error err), State.Idle (some f), ⟨js, rws, sks, ds, fls⟩)
    ∧ pollFlush (State.InSeek ⟨tgt, Except.ok cur, f⟩) ⟨true :: js, rws, sks, ds, fls⟩
      = (Poll.ready (Except.ok ()), State.Idle (some f), ⟨js, rws, sks, ds, fls⟩)
    ∧ pollFlush (State.InSeek ⟨tgt, Except.error err, f⟩) ⟨true :: js, rws, sks, ds, fls⟩
      = (Poll.ready (Except.error err), State.Idle (some f), ⟨js, rws, sks, ds, fls⟩) :=
  ⟨rfl, rfl, rfl, rfl, rfl, rfl, rfl⟩

/-- Claim C7: quiesce is an immediate no-op in Idle (consuming nothing); when
the join is not ready it returns pending having dropped the pipe end but
keeping the unconsumed task, and invoking it again in that pipe-end-absent
state (a harmless re-drop of the already-taken end) joins the task exactly
once, recovering the handle into Idle — a consumed task no longer appears in
the state, so it is never polled for a result again. -/
theorem pollStop_idle_noop_reentrant (fo : Option OSFile) (f : OSFile) (err : IOError)
    (r : Option Reader) (w : Option Writer) (t : RWTask) (st : SeekTask) (e : Env)
    (js : List Bool) (rws : List (Except IOError Unit)) (sks : List (Except IOError Nat))
    (ds fls : List (Poll (Except IOError Nat))) :
    pollStop (State.Idle fo) e = (Poll.ready (Except.ok ()), State.Idle fo, e)
    ∧ pollStop (State.InRead r t) ⟨false :: js, rws, sks, ds, fls⟩
      = (Poll.pending, State.InRead none t, ⟨js, rws, sks, ds, fls⟩)
    ∧ pollStop (State.InWrite w t) ⟨false :: js, rws, sks, ds, fls⟩
      = (Poll.pending, State.InWrite none t, ⟨js, rws, sks, ds, fls⟩)
    ∧ pollStop (State.InSeek st) ⟨false :: js, rws, sks, ds, fls⟩
      = (Poll.pending, State.InSeek st, ⟨js, rws, sks, ds, fls⟩)
    ∧ pollStop (State.InRead none ⟨Except.ok (), f⟩) ⟨true :: js, rws, sks, ds, fls⟩
      = (Poll.ready (Except.ok ()), State.Idle (some f), ⟨js, rws, sks, ds, fls⟩)
    ∧ pollStop (State.InRead none ⟨Except.error err, f⟩) ⟨true :: js, rws, sks, ds, fls⟩
      = (Poll.ready (Except.error err), State.Idle (some f), ⟨js, rws, sks, ds, fls⟩)
    ∧ pollStop (State.InWrite none ⟨Except.ok (), f⟩) ⟨true :: js, rws, sks, ds, fls⟩
      = (Poll.ready (Except.ok ()), State.Idle (some f), ⟨js, rws, sks, ds, fls⟩)
    ∧ pollStop (State.InWrite none ⟨Except.error err, f⟩) ⟨true :: js, rws, sks, ds, fls⟩
      = (Poll.ready (Except.error err), State.Idle (some f), ⟨js, rws, sks, ds, fls⟩) :=
  ⟨rfl, rfl, rfl, rfl, rfl, rfl, rfl, rfl⟩

/-- Claim C9: after close the state is Idle with no OS handle, and invoking
read, write or seek there fails the `expect` assertion on the absent handle
(modelled `none`) rather than returning a typed I/O error. -/
theorem after_close_read_write_seek_panics (e : Env) (pos : SeekFrom) :
    pollRead (State.Idle none) e = none
    ∧ pollWrite (State.Idle none) e = none
    ∧ pollSeek pos (State.Idle none) e = none :=
  ⟨rfl, rfl, rfl⟩

/-- Claim C10: after close, flush and close do not fail an assertion: the
Idle-with-no-handle state is treated like any Idle state, so flush returns
success immediately and a repeated close returns success, leaving the state
Idle with no OS handle. -/
theorem after_close_flush_close_succeed (e : Env) :
    pollFlush (State.Idle none) e = (Poll.ready (Except.ok ()), State.Idle none, e)
    ∧ pollClose (State.Idle none) e = (Poll.ready (Except.ok ()), State.Idle none, e) :=
  ⟨rfl, rfl⟩

end Fs
